import Mathlib

/-!
Verification of the MovieTracker watchlist program (src/main.rs) against its
natural-language specification.  The Rust source is shallowly embedded below:
pure functions become Lean functions, the mutation of `App` becomes explicit
state passing, file-system effects become an explicit `FileContent` value, and
the fallible JSON decoding returns `Option`.
-/

namespace MovieTracker

/-- A movie record, embedded from the Rust struct `Movie` in src/main.rs:
`year : u32` (a non-negative integer, no arithmetic is ever performed on it),
`watched : bool`, and `movie : String` (the title). -/
structure Movie where
  year : Nat
  watched : Bool
  movie : String
deriving DecidableEq

/-! ### The JSON layer

Modelled from the spec: the program persists with `serde_json::to_string_pretty`
and reads back with `serde_json::from_str::<Vec<Movie>>`; the serde_json crate
is a dependency whose source is not part of this repository.  Spec section 6
describes the persisted file as "a structured text document holding an ordered
array of objects, each with three fields — a non-negative integer year, a
boolean watched flag, and a text title — written in a pretty/indented form".
The encoder below reproduces serde_json's pretty output (two-space indent,
`"key": value` pairs in struct declaration order, short escapes and `\u00XX`
for control characters); the decoder is a whitespace-tolerant recursive-descent
JSON reader for that document shape. -/

/-- The double-quote character. -/
def quoteC : Char := '\x22'

/-- The backslash character. -/
def bslash : Char := '\\'

/-- The opening-brace character. -/
def lbrace : Char := '\x7b'

/-- The closing-brace character. -/
def rbrace : Char := '\x7d'

/-- The newline character. -/
def nl : Char := '\n'

/-- Decimal digit test, phrased on code points. -/
def isDigitC (c : Char) : Bool := 48 ≤ c.toNat && c.toNat ≤ 57

/-- Numeric value of a decimal digit character. -/
def digitVal (c : Char) : Nat := c.toNat - 48

/-- Little-endian decimal digits of `n` (fuelled; `fuel > n` suffices). -/
def natToCharsAux : Nat → Nat → List Char
  | 0, _ => []
  | fuel + 1, n => if n = 0 then [] else Nat.digitChar (n % 10) :: natToCharsAux fuel (n / 10)

/-- Decimal representation of a natural number, most significant digit first. -/
def natToChars (n : Nat) : List Char :=
  if n = 0 then ['0'] else (natToCharsAux (n + 1) n).reverse

/-- JSON string escaping of one character, as serde_json emits it: short
escapes for quote, backslash, backspace, tab, newline, form feed and carriage
return, `\u00XX` (lowercase hex) for the remaining control characters, and
every other character verbatim. -/
def escapeChar (c : Char) : List Char :=
  if c = quoteC then [bslash, quoteC]
  else if c = bslash then [bslash, bslash]
  else if c.toNat = 8 then [bslash, 'b']
  else if c.toNat = 9 then [bslash, 't']
  else if c.toNat = 10 then [bslash, 'n']
  else if c.toNat = 12 then [bslash, 'f']
  else if c.toNat = 13 then [bslash, 'r']
  else if c.toNat < 32 then
    [bslash, 'u', '0', '0', Nat.digitChar (c.toNat / 16), Nat.digitChar (c.toNat % 16)]
  else [c]

/-- Escape every character of a string body. -/
def escList : List Char → List Char
  | [] => []
  | c :: cs => escapeChar c ++ escList cs

/-- A JSON string literal: quote, escaped body, quote. -/
def encStr (s : String) : List Char := quoteC :: (escList s.toList ++ [quoteC])

/-- A JSON boolean literal. -/
def encBool (b : Bool) : List Char :=
  if b then ['t', 'r', 'u', 'e'] else ['f', 'a', 'l', 's', 'e']

/-- `n` spaces. -/
def sp (n : Nat) : List Char := List.replicate n ' '

/-- The characters of the field name `year`. -/
def keyYear : List Char := ['y', 'e', 'a', 'r']

/-- The characters of the field name `watched`. -/
def keyWatched : List Char := ['w', 'a', 't', 'c', 'h', 'e', 'd']

/-- The characters of the field name `movie`. -/
def keyMovie : List Char := ['m', 'o', 'v', 'i', 'e']

/-- A pretty-printed object key: `"key": `. -/
def encKey (k : List Char) : List Char := quoteC :: (k ++ [quoteC, ':', ' '])

/-- One movie object as serde_json pretty-prints it at array depth 1:
fields in struct declaration order, keys indented four spaces, closing brace
indented two. -/
def encodeMovie (m : Movie) : List Char :=
  [lbrace, nl] ++ sp 4 ++ encKey keyYear ++ natToChars m.year ++ [',', nl]
    ++ sp 4 ++ encKey keyWatched ++ encBool m.watched ++ [',', nl]
    ++ sp 4 ++ encKey keyMovie ++ encStr m.movie ++ [nl]
    ++ sp 2 ++ [rbrace]

/-- The remaining array elements, each preceded by a comma, newline, indent. -/
def encodeTail : List Movie → List Char
  | [] => []
  | m :: ms => [',', nl] ++ sp 2 ++ encodeMovie m ++ encodeTail ms

/-- A movie list as a pretty-printed JSON array; `[]` when empty. -/
def encodeMovies : List Movie → List Char
  | [] => ['[', ']']
  | m :: ms => ['[', nl] ++ sp 2 ++ encodeMovie m ++ encodeTail ms ++ [nl, ']']

/-- Modelled from the spec: `serde_json::to_string_pretty(&self.movies)`.
For a `Vec<Movie>` serde_json's serializer cannot fail, so the model is
total. -/
def to_string_pretty (ms : List Movie) : String := String.mk (encodeMovies ms)

/-- JSON insignificant whitespace: space, newline, tab, carriage return. -/
def isWs (c : Char) : Bool :=
  c = ' ' || c.toNat = 10 || c.toNat = 9 || c.toNat = 13

/-- Drop leading insignificant whitespace. -/
def skipWs : List Char → List Char
  | [] => []
  | c :: cs => if isWs c then skipWs cs else c :: cs

/-- Consume one expected character. -/
def expectChar (c : Char) : List Char → Option (List Char)
  | [] => none
  | d :: cs => if d = c then some cs else none

/-- Consume further decimal digits, accumulating their value. -/
def takeDigitsAux : List Char → Nat → Nat × List Char
  | [], a => (a, [])
  | c :: cs, a => if isDigitC c then takeDigitsAux cs (a * 10 + digitVal c) else (a, c :: cs)

/-- Read a non-negative decimal integer (at least one digit). -/
def parseNat : List Char → Option (Nat × List Char)
  | [] => none
  | c :: cs => if isDigitC c then some (takeDigitsAux cs (digitVal c)) else none

/-- Read a JSON boolean literal. -/
def parseBool (cs : List Char) : Option (Bool × List Char) :=
  if cs.take 4 = ['t', 'r', 'u', 'e'] then some (true, cs.drop 4)
  else if cs.take 5 = ['f', 'a', 'l', 's', 'e'] then some (false, cs.drop 5)
  else none

/-- Numeric value of a hexadecimal digit character, either case. -/
def hexVal (c : Char) : Option Nat :=
  if isDigitC c then some (c.toNat - 48)
  else if 97 ≤ c.toNat && c.toNat ≤ 102 then some (c.toNat - 87)
  else if 65 ≤ c.toNat && c.toNat ≤ 70 then some (c.toNat - 55)
  else none

/-- Decode a single-character JSON escape (everything except `\uXXXX`). -/
def unescape (c : Char) : Option Char :=
  if c = quoteC then some quoteC
  else if c = bslash then some bslash
  else if c = '/' then some '/'
  else if c = 'b' then some '\x08'
  else if c = 'f' then some '\x0c'
  else if c = 'n' then some nl
  else if c = 't' then some '\t'
  else if c = 'r' then some '\r'
  else none

/-- Read four hexadecimal digits and combine their value. -/
def hex4 : List Char → Option (Nat × List Char)
  | h1 :: h2 :: h3 :: h4 :: cs =>
    match hexVal h1, hexVal h2, hexVal h3, hexVal h4 with
    | some a, some b, some d, some e => some (((a * 16 + b) * 16 + d) * 16 + e, cs)
    | _, _, _, _ => none
  | _ => none

/-- Decode the escape sequence following a backslash: `uXXXX` (rejecting
surrogate code points, as serde_json rejects lone surrogates) or a
single-character escape. -/
def readEsc : List Char → Option (Char × List Char)
  | [] => none
  | e :: cs =>
    if e = 'u' then
      match hex4 cs with
      | some (n, cs2) => if n.isValidChar then some (Char.ofNat n, cs2) else none
      | none => none
    else
      match unescape e with
      | some u => some (u, cs)
      | none => none

/-- Read a JSON string body up to the closing quote, decoding escapes;
unescaped control characters and invalid escapes are rejected, as serde_json
rejects them.  Fuelled: every step consumes at least one input character, so
fuel exceeding the input length suffices. -/
def parseStrAux : Nat → List Char → Option (List Char × List Char)
  | 0, _ => none
  | fuel + 1, cs =>
    match cs with
    | [] => none
    | c :: cs1 =>
      if c = quoteC then some ([], cs1)
      else if c = bslash then
        match readEsc cs1 with
        | some (u, cs2) =>
          match parseStrAux fuel cs2 with
          | some (out, rest) => some (u :: out, rest)
          | none => none
        | none => none
      else if c.toNat < 32 then none
      else
        match parseStrAux fuel cs1 with
        | some (out, rest) => some (c :: out, rest)
        | none => none

/-- Read a JSON string literal (opening quote then body). -/
def parseString : List Char → Option (List Char × List Char)
  | [] => none
  | c :: cs => if c = quoteC then parseStrAux (cs.length + 1) cs else none

/-- Read one movie object: `{"year": n, "watched": b, "movie": s}`, fields in
the order the program's serializer writes them, arbitrary whitespace between
tokens. -/
def parseMovie (cs0 : List Char) : Option (Movie × List Char) := do
  let cs1 ← expectChar lbrace (skipWs cs0)
  let (k1, cs2) ← parseString (skipWs cs1)
  if k1 ≠ keyYear then none else do
  let cs3 ← expectChar ':' (skipWs cs2)
  let (y, cs4) ← parseNat (skipWs cs3)
  let cs5 ← expectChar ',' (skipWs cs4)
  let (k2, cs6) ← parseString (skipWs cs5)
  if k2 ≠ keyWatched then none else do
  let cs7 ← expectChar ':' (skipWs cs6)
  let (w, cs8) ← parseBool (skipWs cs7)
  let cs9 ← expectChar ',' (skipWs cs8)
  let (k3, cs10) ← parseString (skipWs cs9)
  if k3 ≠ keyMovie then none else do
  let cs11 ← expectChar ':' (skipWs cs10)
  let (t, cs12) ← parseString (skipWs cs11)
  let cs13 ← expectChar rbrace (skipWs cs12)
  some ({ year := y, watched := w, movie := String.mk t }, cs13)

/-- Read the array elements after the first one: either `]` closing the array
or `,` followed by another object.  Fuelled; every iteration consumes at least
one character, so fuel exceeding the input length suffices. -/
def parseTail : Nat → List Char → List Movie → Option (List Movie × List Char)
  | 0, _, _ => none
  | fuel + 1, cs, acc =>
    match skipWs cs with
    | [] => none
    | c :: rest =>
      if c = ']' then some (acc.reverse, rest)
      else if c = ',' then
        match parseMovie rest with
        | some (m, rest2) => parseTail fuel rest2 (m :: acc)
        | none => none
      else none

/-- Read a whole document: one array of movie objects with nothing but
whitespace after it. -/
def from_chars (cs : List Char) : Option (List Movie) :=
  match expectChar '[' (skipWs cs) with
  | none => none
  | some cs1 =>
    match skipWs cs1 with
    | [] => none
    | c :: rest =>
      if c = ']' then (if skipWs rest = [] then some [] else none)
      else
        match parseMovie (c :: rest) with
        | some (m, rest2) =>
          match parseTail (rest2.length + 1) rest2 [m] with
          | some (ms, rest3) => if skipWs rest3 = [] then some ms else none
          | none => none
        | none => none

/-- Modelled from the spec: `serde_json::from_str::<Vec<Movie>>(&contents)`,
returning `none` where serde_json returns a parse error. -/
def from_str (s : String) : Option (List Movie) := from_chars s.toList

/-! ### The file system and the application state

The file system is collapsed to the state of the one file a call touches:
absent (`Path::new(path).exists()` is false), unreadable
(`fs::read_to_string` fails), or present with text contents. -/

/-- The state of the persisted file at the path in question. -/
inductive FileContent where
  | absent : FileContent
  | unreadable : FileContent
  | text : String → FileContent
deriving DecidableEq

/-- A diagnostic emitted on the error stream by `eprintln!`. -/
inductive Diag where
  | readFailed : Diag
  | parseFailed : Diag
deriving DecidableEq

/-- Embeds `App::load_from_file` (src/main.rs lines 47-66): missing file gives
the empty list silently; a read failure or a parse failure gives the empty
list plus a diagnostic on the error stream; a successful parse gives the
decoded list.  The function is total: no failure reaches the caller. -/
def load_from_file : FileContent → List Movie × List Diag
  | FileContent.absent => ([], [])
  | FileContent.unreadable => ([], [Diag.readFailed])
  | FileContent.text s =>
    match from_str s with
    | some movies => (movies, [])
    | none => ([], [Diag.parseFailed])

/-- Embeds the Rust struct `App` (src/main.rs lines 26-31).  `list_state`
keeps ratatui's `ListState` selection, an `Option<usize>`. -/
structure App where
  movies : List Movie
  selected : Nat
  save_path : String
  list_state : Option Nat
deriving DecidableEq

/-- Embeds `App::new` (src/main.rs lines 34-45): load the movies, select
index 0.  Also returns the diagnostics the load emitted. -/
def App.new (save_path : String) (file : FileContent) : App × List Diag :=
  let loaded := load_from_file file
  ({ movies := loaded.1, selected := 0, save_path := save_path, list_state := some 0 },
    loaded.2)

/-- Embeds `App::save_to_file` (src/main.rs lines 68-72): serialize the whole
list and overwrite the file in one write.  `writeFails` models the
environment making `fs::write` fail; the result mirrors `io::Result<()>`.
Serialization itself cannot fail for this type. -/
def save_to_file (a : App) (writeFails : Bool) (old : FileContent) :
    FileContent × Except Unit Unit :=
  if writeFails then (old, Except.error ())
  else (FileContent.text (to_string_pretty a.movies), Except.ok ())

/-- Embeds `App::toggle_current` (src/main.rs lines 74-79): when the list is
non-empty, flip `watched` at index `selected` and save, discarding the save's
result (`let _ = self.save_to_file()`).  `none` models the index panic of
`self.movies[self.selected]` when `selected` is out of bounds (unreachable
from the maintained invariant). -/
def toggle_current (a : App) (writeFails : Bool) (file : FileContent) :
    Option (App × FileContent) :=
  if a.movies.isEmpty then some (a, file)
  else
    match a.movies[a.selected]? with
    | none => none
    | some m =>
      let a2 := { a with movies := a.movies.set a.selected { m with watched := !m.watched } }
      some (a2, (save_to_file a2 writeFails file).1)

/-- Embeds `App::next` (src/main.rs lines 81-86): advance the selection by
one, wrapping with `%`, and mirror it into the list state; no-op when empty. -/
def next (a : App) : App :=
  if a.movies.isEmpty then a
  else
    let s := (a.selected + 1) % a.movies.length
    { a with selected := s, list_state := some s }

/-- Embeds `App::previous` (src/main.rs lines 88-97): retreat the selection by
one, wrapping from 0 to `len - 1`, and mirror it into the list state; no-op
when empty. -/
def previous (a : App) : App :=
  if a.movies.isEmpty then a
  else
    let s := if a.selected = 0 then a.movies.length - 1 else a.selected - 1
    { a with selected := s, list_state := some s }

/-- Embeds `App::get_stats` (src/main.rs lines 99-103): the number of watched
records paired with the total count. -/
def get_stats (a : App) : Nat × Nat :=
  ((a.movies.filter (fun m => m.watched)).length, a.movies.length)

/-! ### The interactive loop and terminal teardown

`main` (src/main.rs lines 106-197) is embedded as a function of a script of
per-iteration outcomes.  Each loop iteration draws (which can fail), polls
(which can fail or time out) and possibly reads one key event (which can
fail); the `?` operator on any of these failures returns from `main`
immediately. -/

/-- The key codes `main` distinguishes. -/
inductive KeyCode where
  | q : KeyCode
  | space : KeyCode
  | down : KeyCode
  | j : KeyCode
  | up : KeyCode
  | k : KeyCode
  | other : KeyCode
deriving DecidableEq

/-- The outcome of one loop iteration's terminal interaction. -/
inductive IterEvent where
  | drawErr : IterEvent
  | pollErr : IterEvent
  | readErr : IterEvent
  | timeout : IterEvent
  | nonPress : IterEvent
  | press : KeyCode → IterEvent
deriving DecidableEq

/-- How the `while` loop ended. -/
inductive LoopResult where
  | quitKey : App → FileContent → LoopResult
  | ioFailure : App → FileContent → LoopResult
  | panicked : LoopResult
  | scriptEnded : LoopResult

/-- One `while !should_quit` loop step per scripted event: an error from
`terminal.draw`, `event::poll` or `event::read` propagates out of `main` via
`?`; a press of `q` sets `should_quit`; Space toggles (and auto-saves); Down/j
and Up/k move the selection; everything else is ignored. -/
def runLoop (writeFails : Bool) :
    List IterEvent → App → FileContent → LoopResult
  | [], _, _ => LoopResult.scriptEnded
  | e :: es, a, f =>
    match e with
    | IterEvent.drawErr => LoopResult.ioFailure a f
    | IterEvent.pollErr => LoopResult.ioFailure a f
    | IterEvent.readErr => LoopResult.ioFailure a f
    | IterEvent.timeout => runLoop writeFails es a f
    | IterEvent.nonPress => runLoop writeFails es a f
    | IterEvent.press c =>
      match c with
      | KeyCode.q => LoopResult.quitKey a f
      | KeyCode.space =>
        match toggle_current a writeFails f with
        | some af => runLoop writeFails es af.1 af.2
        | none => LoopResult.panicked
      | KeyCode.down => runLoop writeFails es (next a) f
      | KeyCode.j => runLoop writeFails es (next a) f
      | KeyCode.up => runLoop writeFails es (previous a) f
      | KeyCode.k => runLoop writeFails es (previous a) f
      | KeyCode.other => runLoop writeFails es a f

/-- How the process exited. -/
inductive MainExit where
  | success : MainExit
  | setupFailure : MainExit
  | loopFailure : MainExit
  | panicExit : MainExit
  | stillRunning : MainExit
deriving DecidableEq

/-- Embeds `main` (src/main.rs lines 106-197): terminal setup (fatal on
failure), `App::new`, the loop, then — only after a normal quit — the
teardown pair `disable_raw_mode` and `LeaveAlternateScreen` (lines 193-194).
The second component records whether teardown was attempted before exit. -/
def main_model (setupOk : Bool) (writeFails : Bool) (events : List IterEvent)
    (initial : FileContent) : MainExit × Bool :=
  if !setupOk then (MainExit.setupFailure, false)
  else
    let started := App.new "movies.json" initial
    match runLoop writeFails events started.1 initial with
    | LoopResult.quitKey _ _ => (MainExit.success, true)
    | LoopResult.ioFailure _ _ => (MainExit.loopFailure, false)
    | LoopResult.panicked => (MainExit.panicExit, false)
    | LoopResult.scriptEnded => (MainExit.stillRunning, false)

/-- True when the list does not start with a decimal digit, so a number read
stops exactly there. -/
def headNotDigit : List Char → Bool
  | [] => true
  | c :: _ => !isDigitC c

/-! ### Sample values used by witnesses -/

def mPulp : Movie := { year := 1994, watched := false, movie := "Pulp Fiction" }

def mA : Movie := { year := 2010, watched := false, movie := "A" }

def mB : Movie := { year := 1999, watched := true, movie := "B" }

def mC : Movie := { year := 2020, watched := true, movie := "C" }

def sampleApp : App :=
  { movies := [mA, mB, mC], selected := 0, save_path := "movies.json",
    list_state := some 0 }

def emptyApp : App :=
  { movies := [], selected := 0, save_path := "movies.json", list_state := some 0 }

def pulpApp : App :=
  { movies := [mPulp], selected := 0, save_path := "movies.json",
    list_state := some 0 }

/-- The selection invariant of the watchlist model: whenever the list is
non-empty the selected index is in bounds. -/
def selInvariant (a : App) : Prop := a.movies ≠ [] → a.selected < a.movies.length

/-! ### Basic lemmas about whitespace skipping -/

theorem skipWs_ws (c : Char) (h : isWs c = true) (cs : List Char) :
    skipWs (c :: cs) = skipWs cs := by
  simp [skipWs, h]

theorem skipWs_stop (c : Char) (h : isWs c = false) (cs : List Char) :
    skipWs (c :: cs) = c :: cs := by
  simp [skipWs, h]

theorem skipWs_space (cs : List Char) : skipWs (' ' :: cs) = skipWs cs :=
  skipWs_ws ' ' (by decide) cs

theorem skipWs_nl (cs : List Char) : skipWs (nl :: cs) = skipWs cs :=
  skipWs_ws nl (by decide) cs

theorem isWs_eq_false_of_isDigitC (c : Char) (h : isDigitC c = true) :
    isWs c = false := by
  simp only [isDigitC, Bool.and_eq_true, decide_eq_true_eq] at h
  have hsp : (' ' : Char).toNat = 32 := by decide
  simp only [isWs, Bool.or_eq_false_iff, decide_eq_false_iff_not]
  refine ⟨⟨⟨fun hc => by rw [hc] at h; omega, by omega⟩, by omega⟩, by omega⟩

/-! ### Decimal digits -/

theorem digitChar_isDigitC (r : Nat) (h : r < 10) :
    isDigitC (Nat.digitChar r) = true := by
  interval_cases r <;> decide

theorem digitVal_digitChar (r : Nat) (h : r < 10) :
    digitVal (Nat.digitChar r) = r := by
  interval_cases r <;> decide

theorem natToCharsAux_all_digits (fuel n : Nat) :
    ∀ c ∈ natToCharsAux fuel n, isDigitC c = true := by
  induction fuel generalizing n with
  | zero => intro c hc; simp [natToCharsAux] at hc
  | succ fuel ih =>
    intro c hc
    by_cases h0 : n = 0
    · simp [natToCharsAux, h0] at hc
    · simp only [natToCharsAux, if_neg h0, List.mem_cons] at hc
      rcases hc with hc | hc
      · subst hc; exact digitChar_isDigitC _ (Nat.mod_lt _ (by omega))
      · exact ih _ _ hc

theorem natToChars_all_digits (n : Nat) :
    ∀ c ∈ natToChars n, isDigitC c = true := by
  unfold natToChars
  by_cases h0 : n = 0
  · simp [h0]; decide
  · simp only [if_neg h0, List.mem_reverse]
    exact natToCharsAux_all_digits _ _

theorem natToCharsAux_foldr (fuel : Nat) :
    ∀ n, n < fuel →
      (natToCharsAux fuel n).foldr (fun c a => a * 10 + digitVal c) 0 = n := by
  induction fuel with
  | zero => intro n h; omega
  | succ fuel ih =>
    intro n h
    by_cases h0 : n = 0
    · simp [natToCharsAux, h0]
    · have hdiv : n / 10 < fuel := by omega
      have hmod : n % 10 < 10 := Nat.mod_lt _ (by omega)
      simp only [natToCharsAux, if_neg h0, List.foldr_cons, ih _ hdiv,
        digitVal_digitChar _ hmod]
      omega

theorem natToChars_foldl (n : Nat) :
    (natToChars n).foldl (fun a c => a * 10 + digitVal c) 0 = n := by
  unfold natToChars
  by_cases h0 : n = 0
  · simp [h0]; decide
  · rw [if_neg h0, List.foldl_reverse]
    have := natToCharsAux_foldr (n + 1) n (by omega)
    simpa using this

theorem natToChars_ne_nil (n : Nat) : natToChars n ≠ [] := by
  unfold natToChars
  by_cases h0 : n = 0
  · simp [h0]
  · rw [if_neg h0]
    simp only [ne_eq, List.reverse_eq_nil_iff]
    simp only [natToCharsAux, if_neg h0]
    simp

theorem takeDigitsAux_append (ds : List Char) :
    ∀ (rest : List Char) (a : Nat), (∀ c ∈ ds, isDigitC c = true) →
      headNotDigit rest = true →
      takeDigitsAux (ds ++ rest) a =
        (ds.foldl (fun x c => x * 10 + digitVal c) a, rest) := by
  induction ds with
  | nil =>
    intro rest a _ hrest
    cases rest with
    | nil => simp [takeDigitsAux]
    | cons c cs =>
      simp only [headNotDigit, Bool.not_eq_true'] at hrest
      simp [takeDigitsAux, hrest]
  | cons d ds ih =>
    intro rest a hds hrest
    have hd : isDigitC d = true := hds d (by simp)
    simp only [List.cons_append, takeDigitsAux, hd, if_true, List.foldl_cons]
    exact ih rest _ (fun c hc => hds c (by simp [hc])) hrest

theorem parseNat_natToChars (n : Nat) (rest : List Char)
    (h : headNotDigit rest = true) :
    parseNat (natToChars n ++ rest) = some (n, rest) := by
  obtain ⟨d, ds, hds⟩ : ∃ d ds, natToChars n = d :: ds := by
    cases hnc : natToChars n with
    | nil => exact absurd hnc (natToChars_ne_nil n)
    | cons d ds => exact ⟨d, ds, rfl⟩
  have hall := natToChars_all_digits n
  have hval := natToChars_foldl n
  rw [hds] at hall hval ⊢
  have hd : isDigitC d = true := hall d (by simp)
  simp only [List.cons_append, parseNat, hd, if_true]
  rw [takeDigitsAux_append ds rest (digitVal d)
    (fun c hc => hall c (by simp [hc])) h]
  simp only [List.foldl_cons] at hval
  have hz : (0 : Nat) * 10 + digitVal d = digitVal d := by omega
  rw [hz] at hval
  rw [hval]

/-! ### Hexadecimal digits and escapes -/

theorem hexVal_digitChar (r : Nat) (h : r < 16) :
    hexVal (Nat.digitChar r) = some r := by
  interval_cases r <;> decide

theorem escapeChar_length_pos (c : Char) : 0 < (escapeChar c).length := by
  unfold escapeChar
  repeat' split
  all_goals simp

theorem le_length_escList (xs : List Char) : xs.length ≤ (escList xs).length := by
  induction xs with
  | nil => simp [escList]
  | cons c xs ih =>
    have := escapeChar_length_pos c
    simp only [escList, List.length_append, List.length_cons]
    omega

theorem parseStrAux_escapeChar (c : Char) (fuel : Nat) (tail : List Char) :
    parseStrAux (fuel + 1) (escapeChar c ++ tail) =
      match parseStrAux fuel tail with
      | some (out, rest) => some (c :: out, rest)
      | none => none := by
  by_cases h1 : c = quoteC
  · subst h1
    simp [escapeChar, parseStrAux, readEsc, unescape, quoteC, bslash]
  by_cases h2 : c = bslash
  · subst h2
    simp [escapeChar, parseStrAux, readEsc, unescape, quoteC, bslash, h1]
  by_cases h3 : c.toNat = 8
  · have hc : c = '\x08' := by
      have h := Char.ofNat_toNat c
      rw [h3] at h
      exact h.symm
    subst hc
    simp [escapeChar, parseStrAux, readEsc, unescape, quoteC, bslash]
  by_cases h4 : c.toNat = 9
  · have hc : c = '\t' := by
      have h := Char.ofNat_toNat c
      rw [h4] at h
      exact h.symm
    subst hc
    simp [escapeChar, parseStrAux, readEsc, unescape, quoteC, bslash]
  by_cases h5 : c.toNat = 10
  · have hc : c = '\n' := by
      have h := Char.ofNat_toNat c
      rw [h5] at h
      exact h.symm
    subst hc
    simp [escapeChar, parseStrAux, readEsc, unescape, quoteC, bslash, nl]
  by_cases h6 : c.toNat = 12
  · have hc : c = '\x0c' := by
      have h := Char.ofNat_toNat c
      rw [h6] at h
      exact h.symm
    subst hc
    simp [escapeChar, parseStrAux, readEsc, unescape, quoteC, bslash]
  by_cases h7 : c.toNat = 13
  · have hc : c = '\r' := by
      have h := Char.ofNat_toNat c
      rw [h7] at h
      exact h.symm
    subst hc
    simp [escapeChar, parseStrAux, readEsc, unescape, quoteC, bslash]
  by_cases h8 : c.toNat < 32
  · have hdiv : c.toNat / 16 < 16 := by omega
    have hmod : c.toNat % 16 < 16 := by omega
    rw [show escapeChar c = [bslash, 'u', '0', '0',
        Nat.digitChar (c.toNat / 16), Nat.digitChar (c.toNat % 16)] from by
      simp [escapeChar, h1, h2, h3, h4, h5, h6, h7, h8]]
    have hv0 : hexVal '0' = some 0 := by decide
    simp only [List.cons_append, List.nil_append, parseStrAux, readEsc, hex4,
      hv0, hexVal_digitChar _ hdiv, hexVal_digitChar _ hmod, quoteC, bslash]
    have hn : ((0 * 16 + 0) * 16 + c.toNat / 16) * 16 + c.toNat % 16 = c.toNat := by
      omega
    simp only [hn]
    rw [if_pos (show (c.toNat).isValidChar by
      unfold Nat.isValidChar
      exact Or.inl (by omega))]
    simp [Char.ofNat_toNat]
  · rw [show escapeChar c = [c] from by
      simp [escapeChar, h1, h2, h3, h4, h5, h6, h7, h8]]
    simp only [List.cons_append, List.nil_append]
    simp [parseStrAux, h1, h2, h8]

theorem parseStrAux_escList (xs : List Char) :
    ∀ (fuel : Nat) (rest : List Char), xs.length < fuel →
      parseStrAux fuel (escList xs ++ (quoteC :: rest)) = some (xs, rest) := by
  induction xs with
  | nil =>
    intro fuel rest h
    match fuel, h with
    | fuel + 1, _ =>
      simp [escList, parseStrAux]
  | cons c xs ih =>
    intro fuel rest h
    match fuel, h with
    | fuel + 1, h =>
      have hx : xs.length < fuel := by
        simp only [List.length_cons] at h
        omega
      simp only [escList, List.append_assoc]
      rw [parseStrAux_escapeChar c fuel _, ih fuel rest hx]

theorem parseString_encStr (s : String) (rest : List Char) :
    parseString (encStr s ++ rest) = some (s.toList, rest) := by
  have hshape : encStr s ++ rest =
      quoteC :: (escList s.toList ++ (quoteC :: rest)) := by
    simp [encStr]
  rw [hshape]
  simp only [parseString, if_pos rfl]
  refine parseStrAux_escList s.toList _ rest ?_
  have h1 := le_length_escList s.toList
  simp only [List.length_append, List.length_cons]
  omega

theorem parseString_encKey (k : List Char) (rest : List Char)
    (hk : escList k = k) :
    parseString (encKey k ++ rest) = some (k, ':' :: ' ' :: rest) := by
  have hshape : encKey k ++ rest =
      quoteC :: (escList k ++ (quoteC :: (':' :: ' ' :: rest))) := by
    rw [hk]
    simp [encKey]
  rw [hshape]
  simp only [parseString, if_pos rfl]
  refine parseStrAux_escList k _ _ ?_
  have h1 := le_length_escList k
  simp only [List.length_append, List.length_cons]
  omega

theorem escList_keyYear : escList keyYear = keyYear := by decide

theorem escList_keyWatched : escList keyWatched = keyWatched := by decide

theorem escList_keyMovie : escList keyMovie = keyMovie := by decide

theorem parseBool_encBool (b : Bool) (rest : List Char) :
    parseBool (encBool b ++ rest) = some (b, rest) := by
  cases b <;> simp [encBool, parseBool]

theorem skipWs_sp (n : Nat) (X : List Char) : skipWs (sp n ++ X) = skipWs X := by
  induction n with
  | zero => simp [sp]
  | succ n ih =>
    simp only [sp, List.replicate_succ, List.cons_append, skipWs_space]
    exact ih

theorem skipWs_lbrace (X : List Char) : skipWs (lbrace :: X) = lbrace :: X :=
  skipWs_stop _ (by decide) X

theorem skipWs_colon (X : List Char) : skipWs (':' :: X) = ':' :: X :=
  skipWs_stop _ (by decide) X

theorem skipWs_comma (X : List Char) : skipWs (',' :: X) = ',' :: X :=
  skipWs_stop _ (by decide) X

theorem skipWs_rbrace (X : List Char) : skipWs (rbrace :: X) = rbrace :: X :=
  skipWs_stop _ (by decide) X

theorem skipWs_rbrack (X : List Char) : skipWs (']' :: X) = ']' :: X :=
  skipWs_stop _ (by decide) X

theorem skipWs_natToChars (n : Nat) (X : List Char) :
    skipWs (natToChars n ++ X) = natToChars n ++ X := by
  obtain ⟨d, ds, hds⟩ : ∃ d ds, natToChars n = d :: ds := by
    cases hnc : natToChars n with
    | nil => exact absurd hnc (natToChars_ne_nil n)
    | cons d ds => exact ⟨d, ds, rfl⟩
  have hd : isDigitC d = true := by
    have := natToChars_all_digits n
    rw [hds] at this
    exact this d (by simp)
  rw [hds, List.cons_append]
  exact skipWs_stop _ (isWs_eq_false_of_isDigitC d hd) _

theorem skipWs_encKey (k : List Char) (X : List Char) :
    skipWs (encKey k ++ X) = encKey k ++ X := by
  simp only [encKey, List.cons_append]
  exact skipWs_stop _ (by decide) _

theorem skipWs_encStr (s : String) (X : List Char) :
    skipWs (encStr s ++ X) = encStr s ++ X := by
  simp only [encStr, List.cons_append]
  exact skipWs_stop _ (by decide) _

theorem skipWs_encBool (b : Bool) (X : List Char) :
    skipWs (encBool b ++ X) = encBool b ++ X := by
  cases b <;> simp only [encBool, List.cons_append] <;>
    exact skipWs_stop _ (by decide) _

theorem expectChar_self (c : Char) (cs : List Char) :
    expectChar c (c :: cs) = some cs := by
  simp [expectChar]

theorem parseString_keyYear (X : List Char) :
    parseString (encKey keyYear ++ X) = some (keyYear, ':' :: ' ' :: X) :=
  parseString_encKey _ _ escList_keyYear

theorem parseString_keyWatched (X : List Char) :
    parseString (encKey keyWatched ++ X) = some (keyWatched, ':' :: ' ' :: X) :=
  parseString_encKey _ _ escList_keyWatched

theorem parseString_keyMovie (X : List Char) :
    parseString (encKey keyMovie ++ X) = some (keyMovie, ':' :: ' ' :: X) :=
  parseString_encKey _ _ escList_keyMovie

theorem parseNat_natToChars_comma (n : Nat) (Z : List Char) :
    parseNat (natToChars n ++ (',' :: Z)) = some (n, ',' :: Z) :=
  parseNat_natToChars n _ rfl

theorem mk_toList (s : String) : String.mk s.toList = s := rfl

theorem parseMovie_encodeMovie (m : Movie) (rest : List Char) :
    parseMovie (encodeMovie m ++ rest) = some (m, rest) := by
  simp only [parseMovie, encodeMovie, List.append_assoc, List.cons_append,
    List.nil_append, skipWs_lbrace, expectChar_self, skipWs_nl, skipWs_sp,
    skipWs_encKey, parseString_keyYear, parseString_keyWatched,
    parseString_keyMovie, skipWs_colon, skipWs_comma, skipWs_space,
    skipWs_natToChars, parseNat_natToChars_comma, skipWs_encBool,
    parseBool_encBool, skipWs_encStr, parseString_encStr, skipWs_rbrace,
    mk_toList, Option.bind_eq_bind, Option.some_bind, ne_eq]
  simp

theorem parseMovie_cons_ws (c : Char) (h : isWs c = true) (X : List Char) :
    parseMovie (c :: X) = parseMovie X := by
  simp only [parseMovie, skipWs_ws _ h]

theorem parseMovie_sp (n : Nat) (X : List Char) :
    parseMovie (sp n ++ X) = parseMovie X := by
  simp only [parseMovie, skipWs_sp]

theorem skipWs_lbrack (X : List Char) : skipWs ('[' :: X) = '[' :: X :=
  skipWs_stop _ (by decide) X

theorem parseMovie_nl (X : List Char) : parseMovie (nl :: X) = parseMovie X :=
  parseMovie_cons_ws nl (by decide) X

theorem skipWs_encodeMovie (m : Movie) (X : List Char) :
    skipWs (encodeMovie m ++ X) = encodeMovie m ++ X := by
  simp only [encodeMovie, List.cons_append]
  exact skipWs_stop _ (by decide) _

theorem lbrace_ne_rbrack : (lbrace = ']') = False := by simp [lbrace]

theorem le_length_encodeTail (ms : List Movie) :
    ms.length ≤ (encodeTail ms).length := by
  induction ms with
  | nil => simp [encodeTail]
  | cons m ms ih =>
    simp only [encodeTail, List.length_cons, List.length_append, List.cons_append]
    omega

theorem parseTail_encodeTail (ms : List Movie) :
    ∀ (fuel : Nat) (acc : List Movie) (rest : List Char), ms.length < fuel →
      parseTail fuel (encodeTail ms ++ (nl :: ']' :: rest)) acc =
        some (acc.reverse ++ ms, rest) := by
  induction ms with
  | nil =>
    intro fuel acc rest h
    match fuel, h with
    | fuel + 1, _ =>
      simp [encodeTail, parseTail, skipWs_nl, skipWs_rbrack]
  | cons m ms ih =>
    intro fuel acc rest h
    match fuel, h with
    | fuel + 1, h =>
      have hx : ms.length < fuel := by
        simp only [List.length_cons] at h
        omega
      have hcomma : ((',' : Char) = ']') = False := by simp
      simp only [encodeTail, List.append_assoc, List.cons_append, List.nil_append]
      rw [parseTail, skipWs_comma]
      simp only [hcomma, if_false, eq_self_iff_true, if_true, parseMovie_nl,
        parseMovie_sp, parseMovie_encodeMovie, ih fuel (m :: acc) rest hx]
      simp

theorem from_chars_encodeMovies (ms : List Movie) :
    from_chars (encodeMovies ms) = some ms := by
  cases ms with
  | nil => decide
  | cons m ms =>
    have hm := parseMovie_encodeMovie m (encodeTail ms ++ (nl :: ']' :: []))
    simp only [encodeMovie, List.append_assoc, List.cons_append,
      List.nil_append] at hm
    have ht := parseTail_encodeTail ms
      ((encodeTail ms ++ (nl :: ']' :: [])).length + 1) [m] []
      (by
        have := le_length_encodeTail ms
        simp only [List.length_append, List.length_cons]
        omega)
    simp only [encodeMovies, encodeMovie, List.append_assoc, List.cons_append,
      List.nil_append, from_chars, skipWs_lbrack, expectChar_self, skipWs_nl,
      skipWs_sp, skipWs_lbrace, lbrace_ne_rbrack, if_false, hm, ht]
    simp [skipWs]

theorem from_str_to_string_pretty (ms : List Movie) :
    from_str (to_string_pretty ms) = some ms := by
  show from_chars (encodeMovies ms) = some ms
  exact from_chars_encodeMovies ms

/-! ### Application-state helper lemmas -/

theorem toggle_current_empty (a : App) (wf : Bool) (f : FileContent)
    (h : a.movies = []) : toggle_current a wf f = some (a, f) := by
  unfold toggle_current
  rw [if_pos (by simp [List.isEmpty_iff, h])]

theorem toggle_current_of_lt (a : App) (wf : Bool) (f : FileContent)
    (h : a.selected < a.movies.length) :
    toggle_current a wf f =
      some
        ({ a with
            movies := a.movies.set a.selected
              { a.movies.get ⟨a.selected, h⟩ with
                  watched := !(a.movies.get ⟨a.selected, h⟩).watched } },
          if wf then f
          else FileContent.text (to_string_pretty (a.movies.set a.selected
            { a.movies.get ⟨a.selected, h⟩ with
                watched := !(a.movies.get ⟨a.selected, h⟩).watched }))) := by
  have hne : a.movies ≠ [] := by
    intro h0
    rw [h0] at h
    simp at h
  unfold toggle_current
  rw [if_neg (by simp [List.isEmpty_iff, hne])]
  rw [List.getElem?_eq_getElem h]
  cases wf <;> simp [save_to_file, List.get_eq_getElem]

theorem next_empty (a : App) (h : a.movies = []) : next a = a := by
  unfold next
  rw [if_pos (by simp [List.isEmpty_iff, h])]

theorem previous_empty (a : App) (h : a.movies = []) : previous a = a := by
  unfold previous
  rw [if_pos (by simp [List.isEmpty_iff, h])]

theorem next_of_ne (a : App) (h : a.movies ≠ []) :
    next a =
      { a with
        selected := (a.selected + 1) % a.movies.length,
        list_state := some ((a.selected + 1) % a.movies.length) } := by
  unfold next
  rw [if_neg (by simp [List.isEmpty_iff, h])]

theorem previous_of_ne (a : App) (h : a.movies ≠ []) :
    previous a =
      { a with
        selected := if a.selected = 0 then a.movies.length - 1 else a.selected - 1,
        list_state := some (if a.selected = 0 then a.movies.length - 1
          else a.selected - 1) } := by
  unfold previous
  rw [if_neg (by simp [List.isEmpty_iff, h])]

theorem next_movies (a : App) : (next a).movies = a.movies := by
  unfold next
  split <;> rfl

theorem previous_movies (a : App) : (previous a).movies = a.movies := by
  unfold previous
  split <;> rfl

theorem next_iterate (a : App) (h : a.movies ≠ [])
    (hs : a.selected < a.movies.length) (k : Nat) :
    (next^[k] a).movies = a.movies ∧
      (next^[k] a).selected = (a.selected + k) % a.movies.length := by
  induction k with
  | zero => simpa using (Nat.mod_eq_of_lt hs).symm
  | succ k ih =>
    obtain ⟨hm, hsel⟩ := ih
    rw [Function.iterate_succ_apply']
    have hne : (next^[k] a).movies ≠ [] := by rw [hm]; exact h
    constructor
    · rw [next_movies, hm]
    · rw [next_of_ne _ hne]
      show ((next^[k] a).selected + 1) % (next^[k] a).movies.length =
        (a.selected + (k + 1)) % a.movies.length
      rw [hm, hsel, Nat.mod_add_mod]
      have hx : a.selected + k + 1 = a.selected + (k + 1) := by omega
      rw [hx]

theorem set_get_self (l : List Movie) :
    ∀ (i : Nat) (h : i < l.length), l.set i (l.get ⟨i, h⟩) = l := by
  induction l with
  | nil => intro i h; simp at h
  | cons x xs ih =>
    intro i h
    cases i with
    | zero => rfl
    | succ i =>
      have h' : i < xs.length := by simpa using h
      show x :: xs.set i (xs.get ⟨i, h'⟩) = x :: xs
      rw [ih i h']

/-- C1: for every sequence of movie records (any length, any contents), saving
with Save and loading back with Load yields a sequence equal to the original
in content and order; concretely, a successful save writes
`to_string_pretty a.movies` and loading that text decodes to exactly
`a.movies` with no diagnostics. -/
theorem C1_save_load_round_trip (a : App) (f : FileContent) :
    (save_to_file a false f).2 = Except.ok () ∧
    load_from_file (save_to_file a false f).1 = (a.movies, []) ∧
    ∀ ms : List Movie, from_str (to_string_pretty ms) = some ms := by
  refine ⟨rfl, ?_, from_str_to_string_pretty⟩
  show load_from_file (FileContent.text (to_string_pretty a.movies)) = (a.movies, [])
  simp only [load_from_file, from_str_to_string_pretty]

/-- C2: ToggleCurrent is a no-op on an empty list; otherwise it flips the
`watched` flag of the record at index `selected` and synchronously saves the
full sequence (the file becomes the serialization of the updated list).  When
the save fails (`writeFails = true`) the failure is not propagated — the
operation still returns normally — the file is left unchanged, and the
flipped in-memory value stands. -/
theorem C2_toggle_flips_and_saves (a : App) (wf : Bool) (f : FileContent) :
    (a.movies = [] → toggle_current a wf f = some (a, f)) ∧
    ∀ h : a.selected < a.movies.length,
      toggle_current a wf f =
        some
          ({ a with
              movies := a.movies.set a.selected
                { a.movies.get ⟨a.selected, h⟩ with
                    watched := !(a.movies.get ⟨a.selected, h⟩).watched } },
            if wf then f
            else FileContent.text (to_string_pretty (a.movies.set a.selected
              { a.movies.get ⟨a.selected, h⟩ with
                  watched := !(a.movies.get ⟨a.selected, h⟩).watched }))) :=
  ⟨fun h => toggle_current_empty a wf f h, fun h => toggle_current_of_lt a wf f h⟩

theorem C2_witness :
    0 < pulpApp.movies.length ∧
    toggle_current pulpApp false FileContent.absent =
      some
        ({ pulpApp with movies := [{ mPulp with watched := true }] },
          FileContent.text (to_string_pretty [{ mPulp with watched := true }])) ∧
    toggle_current pulpApp true FileContent.absent =
      some
        ({ pulpApp with movies := [{ mPulp with watched := true }] },
          FileContent.absent) := by
  refine ⟨by decide, ?_, ?_⟩
  · exact (C2_toggle_flips_and_saves pulpApp false FileContent.absent).2 (by decide)
  · exact (C2_toggle_flips_and_saves pulpApp true FileContent.absent).2 (by decide)

/-- C3: Load never fails its caller.  A missing file yields the empty list
with no diagnostic; an unreadable file yields the empty list plus a
diagnostic; unparsable text yields the empty list plus a diagnostic; and text
that parses yields exactly the decoded sequence, in order.  `load_from_file`
is total, so no failure can propagate. -/
theorem C3_load_never_fails :
    load_from_file FileContent.absent = ([], []) ∧
    load_from_file FileContent.unreadable = ([], [Diag.readFailed]) ∧
    (∀ (s : String) (ms : List Movie), from_str s = some ms →
      load_from_file (FileContent.text s) = (ms, [])) ∧
    (∀ s : String, from_str s = none →
      load_from_file (FileContent.text s) = ([], [Diag.parseFailed])) := by
  refine ⟨rfl, rfl, ?_, ?_⟩
  · intro s ms h
    simp [load_from_file, h]
  · intro s h
    simp [load_from_file, h]

theorem C3_witness :
    from_str "[]" = some [] ∧
    load_from_file (FileContent.text "[]") = ([], []) ∧
    from_str "oops" = none ∧
    load_from_file (FileContent.text "oops") = ([], [Diag.parseFailed]) :=
  ⟨by decide, C3_load_never_fails.2.2.1 "[]" [] (by decide), by decide,
    C3_load_never_fails.2.2.2 "oops" (by decide)⟩

/-- C4: the selection invariant `0 <= selected < length` (vacuous at length 0)
holds after startup and is preserved by Next, Previous and ToggleCurrent; and
on an empty list all three operations are no-ops. -/
theorem C4_selection_invariant :
    (∀ (p : String) (f : FileContent), selInvariant (App.new p f).1) ∧
    (∀ a : App, selInvariant a → selInvariant (next a)) ∧
    (∀ a : App, selInvariant a → selInvariant (previous a)) ∧
    (∀ (a a' : App) (wf : Bool) (f f' : FileContent),
      toggle_current a wf f = some (a', f') → selInvariant a → selInvariant a') ∧
    (∀ (a : App) (wf : Bool) (f : FileContent), a.movies = [] →
      toggle_current a wf f = some (a, f) ∧ next a = a ∧ previous a = a) := by
  refine ⟨?_, ?_, ?_, ?_, ?_⟩
  · intro p f hne
    exact List.length_pos.mpr hne
  · intro a ha
    by_cases h : a.movies = []
    · rw [next_empty a h]
      exact ha
    · rw [next_of_ne a h]
      intro _
      show (a.selected + 1) % a.movies.length < a.movies.length
      exact Nat.mod_lt _ (List.length_pos.mpr h)
  · intro a ha
    by_cases h : a.movies = []
    · rw [previous_empty a h]
      exact ha
    · rw [previous_of_ne a h]
      intro _
      show (if a.selected = 0 then a.movies.length - 1 else a.selected - 1) <
        a.movies.length
      have hL : 0 < a.movies.length := List.length_pos.mpr h
      have hs := ha h
      split <;> omega
  · intro a a' wf f f' htog ha
    by_cases h : a.movies = []
    · rw [toggle_current_empty a wf f h] at htog
      simp only [Option.some.injEq, Prod.mk.injEq] at htog
      rw [← htog.1]
      exact ha
    · rw [toggle_current_of_lt a wf f (ha h)] at htog
      simp only [Option.some.injEq, Prod.mk.injEq] at htog
      rw [← htog.1]
      intro _
      show a.selected < (a.movies.set _ _).length
      simpa [List.length_set] using ha h
  · intro a wf f h
    exact ⟨toggle_current_empty a wf f h, next_empty a h, previous_empty a h⟩

theorem C4_witness :
    selInvariant (App.new "movies.json" FileContent.absent).1 ∧
    selInvariant sampleApp ∧
    selInvariant (next sampleApp) ∧
    selInvariant (previous sampleApp) ∧
    (toggle_current emptyApp false FileContent.absent =
        some (emptyApp, FileContent.absent) ∧
      next emptyApp = emptyApp ∧ previous emptyApp = emptyApp) :=
  ⟨C4_selection_invariant.1 _ _, fun _ => by decide,
    C4_selection_invariant.2.1 sampleApp (fun _ => by decide),
    C4_selection_invariant.2.2.1 sampleApp (fun _ => by decide),
    C4_selection_invariant.2.2.2.2 emptyApp false FileContent.absent rfl⟩

/-- C6: for a non-empty list of length L and any in-bounds starting index,
L applications of Next return the selection to the starting index; and one
application of Previous from index 0 lands on index L - 1. -/
theorem C6_navigation_wraps (a : App) (h : a.movies ≠ []) :
    (a.selected < a.movies.length →
      (next^[a.movies.length] a).selected = a.selected) ∧
    (a.selected = 0 → (previous a).selected = a.movies.length - 1) := by
  constructor
  · intro hs
    obtain ⟨_, hsel⟩ := next_iterate a h hs a.movies.length
    rw [hsel, Nat.add_mod_right, Nat.mod_eq_of_lt hs]
  · intro h0
    rw [previous_of_ne a h]
    show (if a.selected = 0 then a.movies.length - 1 else a.selected - 1) = _
    rw [if_pos h0]

theorem C6_witness :
    sampleApp.movies ≠ [] ∧
    sampleApp.selected < sampleApp.movies.length ∧
    (next^[sampleApp.movies.length] sampleApp).selected = sampleApp.selected ∧
    sampleApp.selected = 0 ∧
    (previous sampleApp).selected = sampleApp.movies.length - 1 :=
  ⟨by decide, by decide,
    (C6_navigation_wraps sampleApp (by decide)).1 (by decide), rfl,
    (C6_navigation_wraps sampleApp (by decide)).2 rfl⟩

/-- C7: on a non-empty list with an in-bounds selected index, applying
ToggleCurrent twice returns the application state to exactly its original
value; in particular the `watched` flag of the record at that index is
restored. -/
theorem C7_double_toggle_restores (a : App) (wf : Bool) (f : FileContent)
    (h : a.selected < a.movies.length) :
    ∃ a1 f1 a2 f2,
      toggle_current a wf f = some (a1, f1) ∧
      toggle_current a1 wf f1 = some (a2, f2) ∧
      a2 = a ∧
      a2.movies[a.selected]?.map Movie.watched =
        a.movies[a.selected]?.map Movie.watched := by
  refine ⟨_, _, _, _, toggle_current_of_lt a wf f h,
    toggle_current_of_lt _ wf _ (by simpa using h), ?_, ?_⟩
  · simp only [List.get_eq_getElem, List.getElem_set_self, List.set_set,
      Bool.not_not]
    show { a with movies := a.movies.set a.selected (a.movies.get ⟨a.selected, h⟩) } = a
    rw [set_get_self a.movies a.selected h]
  · simp only [List.get_eq_getElem, List.getElem_set_self, List.set_set,
      Bool.not_not]
    show ((a.movies.set a.selected (a.movies.get ⟨a.selected, h⟩))[a.selected]?).map
        Movie.watched = (a.movies[a.selected]?).map Movie.watched
    rw [set_get_self a.movies a.selected h]

theorem C7_witness :
    0 < pulpApp.movies.length ∧
    (∃ a1 f1 a2 f2,
      toggle_current pulpApp false FileContent.absent = some (a1, f1) ∧
      toggle_current a1 false f1 = some (a2, f2) ∧
      a2 = pulpApp ∧
      a2.movies[0]?.map Movie.watched =
        pulpApp.movies[0]?.map Movie.watched) :=
  ⟨by decide, C7_double_toggle_restores pulpApp false FileContent.absent (by decide)⟩

/-- C8: on an empty sequence ToggleCurrent, Next and Previous all return the
state (and file) unchanged and produce no failure: ToggleCurrent returns
normally (`some`, never the out-of-bounds `none`) and the cursor moves are
identities. -/
theorem C8_empty_ops_safe (a : App) (wf : Bool) (f : FileContent)
    (h : a.movies = []) :
    toggle_current a wf f = some (a, f) ∧ next a = a ∧ previous a = a :=
  ⟨toggle_current_empty a wf f h, next_empty a h, previous_empty a h⟩

theorem C8_witness :
    emptyApp.movies = [] ∧
    toggle_current emptyApp false FileContent.absent =
      some (emptyApp, FileContent.absent) ∧
    next emptyApp = emptyApp ∧ previous emptyApp = emptyApp :=
  ⟨rfl, (C8_empty_ops_safe emptyApp false FileContent.absent rfl).1,
    (C8_empty_ops_safe emptyApp false FileContent.absent rfl).2.1,
    (C8_empty_ops_safe emptyApp false FileContent.absent rfl).2.2⟩

/-- C9: `get_stats` returns the pair (number of watched records, total
length); it is a pure function of the state (the embedding gives it no
effects).  On the records [(2010, false, A), (1999, true, B),
(2020, true, C)] it returns (2, 3). -/
theorem C9_get_stats_spec :
    (∀ a : App,
      get_stats a = (a.movies.countP (fun m => m.watched), a.movies.length)) ∧
    get_stats sampleApp = (2, 3) := by
  constructor
  · intro a
    unfold get_stats
    rw [List.countP_eq_length_filter]
  · decide

/-- C10: ToggleCurrent changes nothing but the `watched` flag of the record
at index `selected`: the length, every other position, the `year` and title
of the toggled record, the selection, the save path and the list state are
all unchanged. -/
theorem C10_toggle_frame (a : App) (wf : Bool) (f : FileContent)
    (h : a.selected < a.movies.length) :
    ∃ a' f', toggle_current a wf f = some (a', f') ∧
      a'.movies.length = a.movies.length ∧
      (∀ j, j ≠ a.selected → a'.movies[j]? = a.movies[j]?) ∧
      a'.movies[a.selected]?.map Movie.year =
        a.movies[a.selected]?.map Movie.year ∧
      a'.movies[a.selected]?.map Movie.movie =
        a.movies[a.selected]?.map Movie.movie ∧
      a'.selected = a.selected ∧ a'.save_path = a.save_path ∧
      a'.list_state = a.list_state := by
  refine ⟨_, _, toggle_current_of_lt a wf f h, by simp, ?_, ?_, ?_, rfl, rfl, rfl⟩
  · intro j hj
    show (a.movies.set a.selected _)[j]? = a.movies[j]?
    rw [List.getElem?_set_ne (Ne.symm hj)]
  · show ((a.movies.set a.selected _)[a.selected]?).map Movie.year =
      (a.movies[a.selected]?).map Movie.year
    rw [List.getElem?_set_self (by simpa using h), List.getElem?_eq_getElem h]
    simp [List.get_eq_getElem]
  · show ((a.movies.set a.selected _)[a.selected]?).map Movie.movie =
      (a.movies[a.selected]?).map Movie.movie
    rw [List.getElem?_set_self (by simpa using h), List.getElem?_eq_getElem h]
    simp [List.get_eq_getElem]

theorem C10_witness :
    0 < sampleApp.movies.length ∧
    (∃ a' f', toggle_current sampleApp false FileContent.absent = some (a', f') ∧
      a'.movies.length = sampleApp.movies.length ∧
      (∀ j, j ≠ sampleApp.selected → a'.movies[j]? = sampleApp.movies[j]?) ∧
      a'.movies[sampleApp.selected]?.map Movie.year =
        sampleApp.movies[sampleApp.selected]?.map Movie.year ∧
      a'.movies[sampleApp.selected]?.map Movie.movie =
        sampleApp.movies[sampleApp.selected]?.map Movie.movie ∧
      a'.selected = sampleApp.selected ∧
      a'.save_path = sampleApp.save_path ∧
      a'.list_state = sampleApp.list_state) :=
  ⟨by decide, C10_toggle_frame sampleApp false FileContent.absent (by decide)⟩

/-- C5 fails on the code: when an iteration's terminal draw (or poll or read)
returns an error after the loop has started, `main` returns through `?`
without attempting `disable_raw_mode` / `LeaveAlternateScreen`; teardown is
attempted only on the normal quit path.  The first component evaluates the
model on such a failing script (teardown not attempted), the second shows the
quit path does attempt it. -/
theorem C5_teardown_not_attempted_on_loop_error :
    main_model true false [IterEvent.timeout, IterEvent.drawErr]
        FileContent.absent = (MainExit.loopFailure, false) ∧
    main_model true false [IterEvent.press KeyCode.q] FileContent.absent =
      (MainExit.success, true) := by
  decide
end MovieTracker
